import Mathlib

/-!
Shallow embedding of the `zetareticula/scann` Rust library.

Conventions used throughout:
* `f32` values manipulated arithmetically are modelled as exact rationals `ℚ`
  (the code's arithmetic is IEEE-754 single precision; the claims treated here
  do not depend on rounding).
* `f32` values manipulated *bitwise* (src/serialize.rs transmutes them to
  `u32`) are modelled by their 32-bit pattern, a `Nat` below `2^32`.
* `u32`/`u64`/`usize` become `Nat` with explicit `% 2^32` where the code's
  wrapping matters; `i32` becomes `Int`.
* fallible operations return `Except ScannErr`; an operation that can abort
  the process (index out of bounds, division by zero, `unwrap` of `None`)
  is wrapped in `Option`, with `none` modelling the abort.
-/

namespace Scann

/-- src/util.rs: the library has a single error type `ScannError { message }`.
The constructors below record which helper produced the error
(`invalid_argument_error`, `failed_precondition_error`, or a directly
constructed `ScannError`); message strings are abstracted away. -/
inductive ScannErr
  | invalidArgument
  | failedPrecondition
  | generic
deriving DecidableEq

/-- src/util.rs `DenseDataset<f32>`: a list of rows plus a declared
dimensionality. -/
structure DenseDataset where
  data : List (List ℚ)
  dimensionality : ℕ
deriving DecidableEq

namespace DenseDataset

/-- src/util.rs `DenseDataset::new(data, dimensionality)`: stores both fields
verbatim, with no validation of the row lengths. -/
def new (data : List (List ℚ)) (dimensionality : ℕ) : DenseDataset :=
  ⟨data, dimensionality⟩

/-- src/util.rs `DenseDataset::set_dimensionality(dim)`: overwrites the
declared dimensionality, leaving the stored rows untouched. -/
def set_dimensionality (ds : DenseDataset) (dim : ℕ) : DenseDataset :=
  { ds with dimensionality := dim }

/-- src/util.rs `DenseDataset::append(values, _docid)`: rejects a row whose
length differs from the declared dimensionality (via
`invalid_argument_error`) and otherwise pushes it.  The returned pair is the
state after the call together with the error, if any. -/
def append (ds : DenseDataset) (values : List ℚ) : DenseDataset × Option ScannErr :=
  if values.length ≠ ds.dimensionality then
    (ds, some .invalidArgument)
  else
    ({ ds with data := ds.data ++ [values] }, none)

/-- src/util.rs `DenseDataset::size()`. -/
def size (ds : DenseDataset) : ℕ := ds.data.length

/-- The invariant claimed by the spec for `VectorStore`: every stored row has
the declared dimensionality. -/
def WF (ds : DenseDataset) : Prop :=
  ∀ v ∈ ds.data, v.length = ds.dimensionality

instance (ds : DenseDataset) : Decidable (WF ds) :=
  inferInstanceAs (Decidable (∀ v ∈ ds.data, v.length = ds.dimensionality))

end DenseDataset

/-! ### src/serialize.rs -/

/-- `u32::to_be_bytes`: the four big-endian base-256 digits of a `u32`
(`16777216 = 2^24`, `65536 = 2^16`). -/
def toBeBytes32 (u : ℕ) : List ℕ :=
  [u / 16777216 % 256, u / 65536 % 256, u / 256 % 256, u % 256]

/-- src/serialize.rs `key_from_uint32` / `uint32_to_key`. -/
def uint32ToKey (u : ℕ) : List ℕ := toBeBytes32 u

/-- `u32::from_be_bytes` on a four-byte slice. -/
def fromBeBytes32 (key : List ℕ) : ℕ :=
  key.foldl (fun acc b => acc * 256 + b) 0

/-- src/serialize.rs `key_to_uint32`: errors (with a directly constructed
`ScannError`) unless the key is exactly four bytes. -/
def keyToUint32 (key : List ℕ) : Except ScannErr ℕ :=
  if key.length = 4 then .ok (fromBeBytes32 key) else .error .generic

/-- `i as u32`: two's-complement reinterpretation of an `i32`. -/
def toUint32 (i : ℤ) : ℕ := (i % 4294967296).toNat

/-- `v as i32`: reinterpret a `u32` value as an `i32`
(`2147483648 = 2^31`). -/
def toInt32 (u : ℕ) : ℤ :=
  if u < 2147483648 then (u : ℤ) else (u : ℤ) - 4294967296

/-- src/serialize.rs `int32_to_key`: `uint32_to_key(i32 as u32)`. -/
def int32ToKey (i : ℤ) : List ℕ := uint32ToKey (toUint32 i)

/-- src/serialize.rs `key_to_int32`: `key_to_uint32(key).map(|v| v as i32)`. -/
def keyToInt32 (key : List ℕ) : Except ScannErr ℤ :=
  (keyToUint32 key).map toInt32

/-- src/serialize.rs `uint_from_ieee754::<f32, u32>` acting on the transmuted
bit pattern `n < 2^32`.  The sign bit `0x80000000 = 2147483648` is clear
exactly when `n < 2^31`; in that branch the code computes `n + sign_bit`, and
otherwise `0u32 - n` (wrapping), i.e. `(2^32 - n) % 2^32`. -/
def uintFromIeee754 (n : ℕ) : ℕ :=
  if n < 2147483648 then (n + 2147483648) % 4294967296
  else (4294967296 - n) % 4294967296

/-- src/serialize.rs `ieee754_from_uint::<f32, u32>`: the inverse adjustment,
`n - sign_bit` when the sign bit is set, else `0u32 - n` (wrapping). -/
def ieee754FromUint (n : ℕ) : ℕ :=
  if 2147483648 ≤ n then n - 2147483648
  else (4294967296 - n) % 4294967296

/-- src/serialize.rs `key_from_float` / `float_to_key`, acting on the bit
pattern of the `f32` argument. -/
def floatToKey (x : ℕ) : List ℕ := uint32ToKey (uintFromIeee754 x)

/-- src/serialize.rs `key_to_float`, returning the bit pattern of the decoded
`f32`. -/
def keyToFloat (key : List ℕ) : Except ScannErr ℕ :=
  (keyToUint32 key).map ieee754FromUint

/-! IEEE-754 binary32 semantics of a bit pattern, needed to state the
spec's numeric-order and finiteness side conditions (`8388608 = 2^23`). -/

/-- Magnitude numerator of a 31-bit sign-stripped payload `p`: a subnormal
(exponent field `0`) is worth `mantissa * 2^(-149)` and a normal payload
`(2^23 + mantissa) * 2^(exponent - 150)`; `mag p / 2^150` is the common
scaling (`2 * mantissa = mantissa * 2^(150-149)`). -/
def mag (p : ℕ) : ℕ :=
  if p / 8388608 = 0 then 2 * (p % 8388608)
  else (8388608 + p % 8388608) * 2 ^ (p / 8388608)

/-- Numeric value of a finite `f32` bit pattern, as an exact rational. -/
def floatValBits (x : ℕ) : ℚ :=
  (if x < 2147483648 then (mag (x % 2147483648) : ℚ)
   else -(mag (x % 2147483648) : ℚ)) / 2 ^ 150

/-- The bit pattern `x < 2^32` denotes a finite `f32` (exponent field is not
all-ones). -/
def isFiniteF32 (x : ℕ) : Prop := x % 2147483648 / 8388608 ≠ 255

instance (x : ℕ) : Decidable (isFiniteF32 x) :=
  inferInstanceAs (Decidable (x % 2147483648 / 8388608 ≠ 255))

/-- Byte-lexicographic strict comparison of keys, as in the spec's
"byte-lexicographic order of keys". -/
def byteLexLt : List ℕ → List ℕ → Bool
  | _, [] => false
  | [], _ :: _ => true
  | a :: as, b :: bs =>
    if a < b then true else if b < a then false else byteLexLt as bs

/-! ### src/distance_measures.rs -/

/-- The fifteen distance measures registered in
src/distance_measures.rs `get_distance_measure_by_name`. -/
inductive Measure
  | dotProductDistance
  | binaryDotProductDistance
  | absDotProductDistance
  | l2Distance
  | squaredL2Distance
  | negatedSquaredL2Distance
  | l1Distance
  | cosineDistance
  | binaryCosineDistance
  | generalJaccardDistance
  | binaryJaccardDistance
  | limitedInnerProductDistance
  | generalHammingDistance
  | binaryHammingDistance
  | nonzeroIntersectDistance
deriving DecidableEq

/-- The body that the `define_distance_measure!` macro generates for every
measure it defines (and src/util.rs `dot_product`, and the private
`dot_product` of src/projection.rs): the iterators are zipped — truncating to
the shorter vector — and the products are summed.  No length check occurs. -/
def dotSum (a b : List ℚ) : ℚ :=
  ((a.zip b).map (fun p => p.1 * p.2)).sum

/-- src/distance_measures.rs `CosineDistance::compute_distance` (the
hand-written impl): `1.0` if either norm is zero, else
`1 - clamp(dot/(‖a‖·‖b‖), -1, 1)` where `.max(-1.0).min(1.0)` is
`min 1 (max (-1) ·)`.  Norms need a square root, hence the result lives
in `ℝ`. -/
noncomputable def cosineDistanceValue (a b : List ℚ) : ℝ :=
  let na : ℝ := Real.sqrt ((dotSum a a : ℚ) : ℝ)
  let nb : ℝ := Real.sqrt ((dotSum b b : ℚ) : ℝ)
  if na = 0 ∨ nb = 0 then 1
  else 1 - min 1 (max (-1) (((dotSum a b : ℚ) : ℝ) / (na * nb)))

/-- `compute_distance` of a registered measure.  Every macro-generated
measure returns the zip-truncated product sum; `CosineDistance` first builds
`DVector`s and calls nalgebra's `a.dot(&b)`, which asserts equal dimensions —
a length mismatch aborts the process, modelled by `none`. -/
noncomputable def computeDistance (m : Measure) (a b : List ℚ) : Option ℝ :=
  match m with
  | .cosineDistance =>
      if a.length = b.length then some (cosineDistanceValue a b) else none
  | _ => some ((dotSum a b : ℚ) : ℝ)

/-- src/distance_measures.rs `get_distance_measure_by_name`: the registry;
an unknown name yields a directly constructed `ScannError`. -/
def getDistanceMeasureByName (nm : String) : Except ScannErr Measure :=
  match nm with
  | "DotProductDistance" => .ok .dotProductDistance
  | "BinaryDotProductDistance" => .ok .binaryDotProductDistance
  | "AbsDotProductDistance" => .ok .absDotProductDistance
  | "L2Distance" => .ok .l2Distance
  | "SquaredL2Distance" => .ok .squaredL2Distance
  | "NegatedSquaredL2Distance" => .ok .negatedSquaredL2Distance
  | "L1Distance" => .ok .l1Distance
  | "CosineDistance" => .ok .cosineDistance
  | "BinaryCosineDistance" => .ok .binaryCosineDistance
  | "GeneralJaccardDistance" => .ok .generalJaccardDistance
  | "BinaryJaccardDistance" => .ok .binaryJaccardDistance
  | "LimitedInnerProductDistance" => .ok .limitedInnerProductDistance
  | "GeneralHammingDistance" => .ok .generalHammingDistance
  | "BinaryHammingDistance" => .ok .binaryHammingDistance
  | "NonzeroIntersectDistance" => .ok .nonzeroIntersectDistance
  | _ => .error .generic

/-! ### src/retrieval.rs -/

/-- The candidate list built by `ScannRetriever::search` before sorting:
`(i, distance(query, dataset.data[i]))` for each row, in index order.  The
distance measure is a parameter (the retriever stores a
`Box<dyn DistanceMeasure>`). -/
def searchResults (dist : List ℚ → List ℚ → ℚ) (dataset : DenseDataset)
    (query : List ℚ) : List (ℕ × ℚ) :=
  dataset.data.enum.map (fun p => (p.1, dist query p.2))

/-- The comparator passed to `results.sort_by`: compare the distance
components only.  (In ℚ the comparison is total, so the `unwrap` of
`partial_cmp` cannot fire; `sort_by` is a stable sort, modelled by
`List.mergeSort`.) -/
def distLE : (ℕ × ℚ) → (ℕ × ℚ) → Bool :=
  fun a b => decide (a.2 ≤ b.2)

/-- src/retrieval.rs `ScannRetriever::search`: build the candidate list,
stable-sort it by distance, and keep the first `k` entries (`k` is the field
of the retriever).  The `Ok(...)` wrapper is omitted: in this model the
function always returns `Ok`. -/
def search (dist : List ℚ → List ℚ → ℚ) (k : ℕ) (dataset : DenseDataset)
    (query : List ℚ) : List (ℕ × ℚ) :=
  (List.mergeSort (searchResults dist dataset query) distLE).take k

/-- src/retrieval.rs `ScannRetriever::retrieve_chunks`: returns
`vec![vec![vec![0; chunk_size]; k]; input_seq.len() / chunk_size]`.  The
division `input_seq.len() / chunk_size` panics when `chunk_size == 0`,
modelled by `none`. -/
def retrieveChunks (k : ℕ) (inputSeq : List ℕ) (chunkSize : ℕ) :
    Option (List (List (List ℕ))) :=
  if chunkSize = 0 then none
  else some (List.replicate (inputSeq.length / chunkSize)
    (List.replicate k (List.replicate chunkSize 0)))

/-! ### src/projection.rs -/

/-- src/projection.rs `PcaProjection<T>` state.  The dimensions are `i32` in
the source; `PcaProjection::new` validates both to be strictly positive, so
reachable states carry naturals. -/
structure PcaProjection where
  input_dims : ℕ
  projected_dims : ℕ
  pca_vecs : Option DenseDataset
deriving DecidableEq

namespace PcaProjection

/-- src/projection.rs `PcaProjection::new(input_dims, projected_dims)`:
`InvalidArgument` unless `0 < projected_dims ≤ input_dims`; starts with no
basis. -/
def new (inputDims projectedDims : ℤ) : Except ScannErr PcaProjection :=
  if inputDims ≤ 0 then .error .invalidArgument
  else if projectedDims ≤ 0 then .error .invalidArgument
  else if inputDims < projectedDims then .error .invalidArgument
  else .ok ⟨inputDims.toNat, projectedDims.toNat, none⟩

/-- src/projection.rs `PcaProjection::create_from_eigenvectors`: installs an
arbitrary dataset as the basis, with no validation against the stored
dimensions. -/
def create_from_eigenvectors (p : PcaProjection) (eigenvectors : DenseDataset) :
    PcaProjection :=
  { p with pca_vecs := some eigenvectors }

/-- src/projection.rs `PcaProjection::project_input`:
`FailedPrecondition` when no basis is present.  Otherwise the output vector
is resized to `projected_dims` zeros and entry `i` is overwritten with
`dot_product(input, basis_row_i)` for each basis row; when the element type
is `f32` every entry is then negated
(`*val = From::from(-f32::from(*val))`).  Writing row `i ≥ projected_dims`
is an out-of-bounds index, which aborts the process — modelled by `none`;
this happens exactly when the basis has more rows than `projected_dims`. -/
def projectInput (p : PcaProjection) (isF32 : Bool) (input : List ℚ) :
    Option (Except ScannErr (List ℚ)) :=
  match p.pca_vecs with
  | none => some (.error .failedPrecondition)
  | some basis =>
    if basis.data.length ≤ p.projected_dims then
      let dots := basis.data.map (fun row => dotSum input row)
      let raw := dots ++ List.replicate (p.projected_dims - basis.data.length) 0
      some (.ok (if isF32 then raw.map (fun x => -x) else raw))
    else none

end PcaProjection

/-! ### src/tree.rs and the proto enums it consumes.

The crate's `proto.rs` present under src/ is truncated (its header reads
"previous proto.rs content unchanged") and does not show the partitioning
configuration messages.  The enum variants and config fields below are
modelled from the spec and from their exhaustive uses in src/tree.rs; the
logic that decides claim C9 (`KMeansTreeTrainingOptions::new` /
`from_config`) is fully present in src/tree.rs. -/

/-- Modelled from the spec: `proto::PartitioningType`; only `Default` appears
in src/. -/
inductive PartitioningType
  | default
deriving DecidableEq

/-- Modelled from the spec: `proto::SpillingType`; only `Default` appears in
src/. -/
inductive SpillingType
  | default
deriving DecidableEq

/-- Modelled from the spec: `proto::BalancingType`, with the three variants
matched in src/tree.rs `from_config`. -/
inductive ProtoBalancingType
  | defaultUnbalanced
  | greedyBalanced
  | unbalancedFloat32
deriving DecidableEq

/-- Modelled from the spec: `proto::TrainerType`, with the four variants
matched in src/tree.rs `from_config`. -/
inductive TrainerType
  | defaultSamplingTrainer
  | flumeKmeansTrainer
  | pcaKmeansTrainer
  | samplingPcaKmeansTrainer
deriving DecidableEq

/-- Modelled from the spec: `proto::CenterInitializationType`. -/
inductive ProtoCenterInitializationType
  | defaultKmeansPlusPlus
  | randomInitialization
deriving DecidableEq

/-- src/tree.rs `gmm_utils::BalancingType`. -/
inductive GmmBalancingType
  | unbalanced
  | greedyBalanced
  | unbalancedFloat32
deriving DecidableEq

/-- src/tree.rs `gmm_utils::ReassignmentType`. -/
inductive GmmReassignmentType
  | randomReassignment
  | pcaSplitting
deriving DecidableEq

/-- src/tree.rs `gmm_utils::CenterInitializationType`. -/
inductive GmmCenterInitializationType
  | kmeansPlusPlus
  | randomInitialization
deriving DecidableEq

/-- Modelled from the spec: `proto::DatabaseSpillingConfig`, with the three
fields read in src/tree.rs `from_config`. -/
structure DatabaseSpillingConfig where
  spilling_type : SpillingType
  replication_factor : ℚ
  max_spill_centers : ℤ
deriving DecidableEq

/-- Modelled from the spec: `proto::PartitioningConfig`, with exactly the
getters called in src/tree.rs `from_config`. -/
structure PartitioningConfig where
  partitioning_type : PartitioningType
  max_num_levels : ℤ
  max_leaf_size : ℤ
  database_spilling : DatabaseSpillingConfig
  max_clustering_iterations : ℤ
  clustering_convergence_tolerance : ℚ
  min_cluster_size : ℤ
  clustering_seed : ℕ
  balancing_type : ProtoBalancingType
  trainer_type : TrainerType
  single_machine_center_initialization : ProtoCenterInitializationType
deriving DecidableEq

/-- src/tree.rs `KMeansTreeTrainingOptions`. -/
structure KMeansTreeTrainingOptions where
  partitioning_type : PartitioningType
  max_num_levels : ℤ
  max_leaf_size : ℤ
  learned_spilling_type : SpillingType
  per_node_spilling_factor : ℚ
  max_spill_centers : ℤ
  max_iterations : ℤ
  convergence_epsilon : ℚ
  min_cluster_size : ℤ
  seed : ℕ
  balancing_type : GmmBalancingType
  reassignment_type : GmmReassignmentType
  center_initialization_type : GmmCenterInitializationType
deriving DecidableEq

namespace KMeansTreeTrainingOptions

/-- src/tree.rs `KMeansTreeTrainingOptions::new()`: all-default fields;
the function is infallible (it returns `Self`, not a `Result`). -/
def new : KMeansTreeTrainingOptions where
  partitioning_type := .default
  max_num_levels := 0
  max_leaf_size := 0
  learned_spilling_type := .default
  per_node_spilling_factor := 0
  max_spill_centers := 0
  max_iterations := 0
  convergence_epsilon := 0
  min_cluster_size := 0
  seed := 0
  balancing_type := .unbalanced
  reassignment_type := .randomReassignment
  center_initialization_type := .kmeansPlusPlus

/-- src/tree.rs `KMeansTreeTrainingOptions::from_config(config)`: copies
every field from the config, mapping the proto enums to the `gmm_utils`
enums; the function is infallible (it returns `Self`, not a `Result`) and
performs no validation of any field. -/
def fromConfig (config : PartitioningConfig) : KMeansTreeTrainingOptions :=
  let balancing : GmmBalancingType :=
    match config.balancing_type with
    | .defaultUnbalanced => .unbalanced
    | .greedyBalanced => .greedyBalanced
    | .unbalancedFloat32 => .unbalancedFloat32
  let reassignment : GmmReassignmentType :=
    match config.trainer_type with
    | .defaultSamplingTrainer => .randomReassignment
    | .flumeKmeansTrainer => .randomReassignment
    | .pcaKmeansTrainer => .pcaSplitting
    | .samplingPcaKmeansTrainer => .pcaSplitting
  let centerInit : GmmCenterInitializationType :=
    match config.single_machine_center_initialization with
    | .defaultKmeansPlusPlus => .kmeansPlusPlus
    | .randomInitialization => .randomInitialization
  { partitioning_type := config.partitioning_type
    max_num_levels := config.max_num_levels
    max_leaf_size := config.max_leaf_size
    learned_spilling_type := config.database_spilling.spilling_type
    per_node_spilling_factor := config.database_spilling.replication_factor
    max_spill_centers := config.database_spilling.max_spill_centers
    max_iterations := config.max_clustering_iterations
    convergence_epsilon := config.clustering_convergence_tolerance
    min_cluster_size := config.min_cluster_size
    seed := config.clustering_seed
    balancing_type := balancing
    reassignment_type := reassignment
    center_initialization_type := centerInit }

end KMeansTreeTrainingOptions

/-! ## Theorems -/

/-- Decoding the four big-endian digits recovers the `u32`. -/
theorem keyToUint32_uint32ToKey {u : ℕ} (hu : u < 4294967296) :
    keyToUint32 (uint32ToKey u) = .ok u := by
  simp only [keyToUint32, uint32ToKey, toBeBytes32, fromBeBytes32, List.foldl,
    List.length_cons, List.length_nil, if_true, eq_self_iff_true]
  congr 1
  omega

/-- The sign-bit adjustment of src/serialize.rs is undone exactly by its
inverse, for every 32-bit pattern except `0x80000000` (negative zero). -/
theorem ieee754FromUint_uintFromIeee754 {x : ℕ} (hx : x < 4294967296)
    (hx0 : x ≠ 2147483648) :
    ieee754FromUint (uintFromIeee754 x) = x := by
  unfold uintFromIeee754 ieee754FromUint
  split_ifs <;> omega

/-- The encoded adjustment always fits in 32 bits. -/
theorem uintFromIeee754_lt (x : ℕ) : uintFromIeee754 x < 4294967296 := by
  unfold uintFromIeee754
  split_ifs <;> omega

/-- Claim C2: for every representable 32-bit unsigned integer, every 32-bit
signed integer, and every finite `f32` bit pattern `x` (NaN and negative
zero excluded), decoding the encoded key returns `x` exactly:
`key_to_uint32 ∘ uint32_to_key`, `key_to_int32 ∘ int32_to_key` and
`key_to_float ∘ float_to_key` are the identity. -/
theorem c2_key_encode_decode_round_trip :
    (∀ u : ℕ, u < 4294967296 → keyToUint32 (uint32ToKey u) = .ok u) ∧
    (∀ i : ℤ, -2147483648 ≤ i → i < 2147483648 →
      keyToInt32 (int32ToKey i) = .ok i) ∧
    (∀ x : ℕ, x < 4294967296 → isFiniteF32 x → x ≠ 2147483648 →
      keyToFloat (floatToKey x) = .ok x) := by
  refine ⟨fun u hu => keyToUint32_uint32ToKey hu, fun i h1 h2 => ?_, fun x hx hfin hx0 => ?_⟩
  · have hu : toUint32 i < 4294967296 := by unfold toUint32; omega
    rw [keyToInt32, int32ToKey, keyToUint32_uint32ToKey hu]
    simp only [Except.map]
    congr 1
    unfold toInt32 toUint32
    split_ifs <;> omega
  · have hu : uintFromIeee754 x < 4294967296 := uintFromIeee754_lt x
    rw [keyToFloat, floatToKey, keyToUint32_uint32ToKey hu]
    simp only [Except.map]
    rw [ieee754FromUint_uintFromIeee754 hx hx0]

/-- Concrete instance of the round-trip: `7`, `-5`, and the bit pattern of
`1.0f32` (`0x3F800000 = 1065353216`). -/
theorem c2_key_encode_decode_round_trip_witness :
    keyToUint32 (uint32ToKey 7) = .ok 7 ∧
    keyToInt32 (int32ToKey (-5)) = .ok (-5) ∧
    keyToFloat (floatToKey 1065353216) = .ok 1065353216 :=
  ⟨c2_key_encode_decode_round_trip.1 7 (by norm_num),
   c2_key_encode_decode_round_trip.2.1 (-5) (by norm_num) (by norm_num),
   c2_key_encode_decode_round_trip.2.2 1065353216 (by norm_num) (by decide) (by norm_num)⟩

/-- Byte-lexicographic order on four big-endian digits agrees with the
numeric order of the encoded 32-bit values. -/
theorem byteLexLt_toBeBytes32 {u v : ℕ} (hu : u < 4294967296) (hv : v < 4294967296) :
    byteLexLt (toBeBytes32 u) (toBeBytes32 v) = true ↔ u < v := by
  simp only [toBeBytes32, byteLexLt]
  split_ifs <;> simp <;> omega

/-- `mag` is strictly monotone: a numerically larger sign-stripped payload
has a strictly larger magnitude numerator. -/
theorem mag_lt_of_lt {m n : ℕ} (h : m < n) : mag m < mag n := by
  have hm23 : m % 8388608 < 8388608 := Nat.mod_lt _ (by norm_num)
  have hn23 : n % 8388608 < 8388608 := Nat.mod_lt _ (by norm_num)
  have hdiv : m / 8388608 ≤ n / 8388608 := Nat.div_le_div_right h.le
  rcases eq_or_lt_of_le hdiv with heq | hlt
  · have hmn : m % 8388608 < n % 8388608 := by
      have h1 := Nat.div_add_mod m 8388608
      have h2 := Nat.div_add_mod n 8388608
      omega
    unfold mag
    rw [← heq]
    split
    · omega
    · exact Nat.mul_lt_mul_of_lt_of_le (by omega) (Nat.le_refl _) (Nat.pos_pow_of_pos _ (by norm_num))
  · have hl : mag m < 2 ^ (24 + m / 8388608) := by
      unfold mag
      split
      · rename_i h0
        rw [h0]
        norm_num
        omega
      · calc (8388608 + m % 8388608) * 2 ^ (m / 8388608)
            < 16777216 * 2 ^ (m / 8388608) := by
              exact Nat.mul_lt_mul_of_lt_of_le (by omega) (Nat.le_refl _)
                (Nat.pos_pow_of_pos _ (by norm_num))
          _ = 2 ^ (24 + m / 8388608) := by
              rw [pow_add]
              norm_num
    have hr : 2 ^ (24 + m / 8388608) ≤ mag n := by
      unfold mag
      split
      · omega
      · calc (2:ℕ) ^ (24 + m / 8388608) ≤ 2 ^ (23 + n / 8388608) :=
              Nat.pow_le_pow_right (by norm_num) (by omega)
        _ = 8388608 * 2 ^ (n / 8388608) := by
              rw [pow_add]
              norm_num
        _ ≤ (8388608 + n % 8388608) * 2 ^ (n / 8388608) :=
              Nat.mul_le_mul_right _ (by omega)
    exact lt_of_lt_of_le hl hr

/-- Converse direction of strict monotonicity of `mag`. -/
theorem lt_of_mag_lt {m n : ℕ} (h : mag m < mag n) : m < n := by
  by_contra hh
  push_neg at hh
  rcases eq_or_lt_of_le hh with heq | hlt
  · rw [heq] at h
    exact lt_irrefl _ h
  · exact absurd h (not_lt.mpr (mag_lt_of_lt hlt).le)

/-- `mag 0 = 0`: both zero payloads denote the numeric value zero. -/
theorem mag_zero : mag 0 = 0 := by norm_num [mag]

/-- The sign-bit adjustment of src/serialize.rs is strictly monotone with
respect to the numeric value of the `f32` bit pattern. -/
theorem uintFromIeee754_lt_of_val_lt {a b : ℕ} (ha : a < 4294967296)
    (hb : b < 4294967296) (hv : floatValBits a < floatValBits b) :
    uintFromIeee754 a < uintFromIeee754 b := by
  have h150 : (0:ℚ) < 2 ^ 150 := by positivity
  rw [floatValBits, floatValBits, div_lt_div_iff₀ h150 h150, mul_lt_mul_right h150] at hv
  unfold uintFromIeee754
  split_ifs with ha1 hb1 hb1
  · -- both sign-clear: values are the nonnegative magnitudes
    rw [if_pos ha1, if_pos hb1, Nat.mod_eq_of_lt ha1, Nat.mod_eq_of_lt hb1] at hv
    have : mag a < mag b := by exact_mod_cast hv
    have hab : a < b := lt_of_mag_lt this
    omega
  · -- a sign-clear, b sign-set: a nonnegative value below a nonpositive one
    rw [if_pos ha1, if_neg hb1] at hv
    have h1 : (0:ℚ) ≤ (mag (a % 2147483648) : ℚ) := Nat.cast_nonneg _
    have h2 : -((mag (b % 2147483648) : ℚ)) ≤ 0 := neg_nonpos.mpr (Nat.cast_nonneg _)
    linarith
  · -- a sign-set, b sign-clear
    rw [if_neg ha1, if_pos hb1] at hv
    rcases eq_or_lt_of_le (not_lt.mp ha1) with heq | hgt
    · -- a is exactly the sign bit (negative zero): its value is 0, so b > 0
      rw [← heq] at hv
      norm_num [mag_zero] at hv
      have hbpos : 0 < mag b := by
        rw [Nat.mod_eq_of_lt hb1] at hv
        exact_mod_cast hv
      have hb0 : b ≠ 0 := by
        intro h0
        rw [h0, mag_zero] at hbpos
        exact lt_irrefl _ hbpos
      omega
    · omega
  · -- both sign-set: values are negated magnitudes, order reversed
    rw [if_neg ha1, if_neg hb1, neg_lt_neg_iff] at hv
    have : mag (b % 2147483648) < mag (a % 2147483648) := by exact_mod_cast hv
    have hba := lt_of_mag_lt this
    omega

/-- Counterexample to claim C3's signed-integer half: `-1 < 0` as `i32`, yet
`int32_to_key(-1) = [255,255,255,255]` is byte-lexicographically *greater*
than `int32_to_key(0) = [0,0,0,0]` — the plain `i32 as u32` cast does not
reorder the sign boundary. -/
theorem c3_counterexample_int32_sign_boundary :
    ((-1 : ℤ) < 0) ∧
    byteLexLt (int32ToKey (-1)) (int32ToKey 0) = false ∧
    byteLexLt (int32ToKey 0) (int32ToKey (-1)) = true := by
  refine ⟨by norm_num, ?_, ?_⟩ <;> decide

/-- Claim C3, amended: for finite `f32` bit patterns the encoding is
byte-lexicographically order-preserving; for signed 32-bit integers it is
order-preserving only between integers of equal sign (the `i32 as u32` cast
sends negative values above nonnegative ones, so the sign boundary is
reversed, as the counterexample shows). -/
theorem c3_key_order_preservation :
    (∀ a b : ℕ, a < 4294967296 → b < 4294967296 → isFiniteF32 a → isFiniteF32 b →
      floatValBits a < floatValBits b →
      byteLexLt (floatToKey a) (floatToKey b) = true) ∧
    (∀ i j : ℤ, -2147483648 ≤ i → j < 2147483648 → i < j → ((0 ≤ i) ↔ (0 ≤ j)) →
      byteLexLt (int32ToKey i) (int32ToKey j) = true) := by
  constructor
  · intro a b ha hb _ _ hv
    rw [floatToKey, floatToKey, uint32ToKey, uint32ToKey]
    exact (byteLexLt_toBeBytes32 (uintFromIeee754_lt a) (uintFromIeee754_lt b)).mpr
      (uintFromIeee754_lt_of_val_lt ha hb hv)
  · intro i j h1 h2 hij hsign
    rw [int32ToKey, int32ToKey, uint32ToKey, uint32ToKey]
    have hui : toUint32 i < 4294967296 := by unfold toUint32; omega
    have huj : toUint32 j < 4294967296 := by unfold toUint32; omega
    refine (byteLexLt_toBeBytes32 hui huj).mpr ?_
    unfold toUint32
    omega

/-- Concrete instances of the amended order-preservation: the patterns of
`1.0f32` and `2.0f32`, and the signed pair `-3 < -1`. -/
theorem c3_key_order_preservation_witness :
    byteLexLt (floatToKey 1065353216) (floatToKey 1073741824) = true ∧
    byteLexLt (int32ToKey (-3)) (int32ToKey (-1)) = true :=
  ⟨c3_key_order_preservation.1 1065353216 1073741824 (by norm_num) (by norm_num)
      (by decide) (by decide) (by norm_num [floatValBits, mag]),
   c3_key_order_preservation.2 (-3) (-1) (by norm_num) (by norm_num) (by norm_num)
      (by norm_num)⟩

/-- Claim C4 (code bug): no registered distance measure validates vector
lengths.  `L1Distance`, obtained from the registry, evaluated on the
mismatched pair `[1]` and `[1, 2]` returns the number `1` (the zip-truncated
product sum) instead of the `InvalidArgument` error the spec requires — the
macro body is explicitly a placeholder. -/
theorem c4_no_length_validation_on_mismatch :
    getDistanceMeasureByName "L1Distance" = .ok .l1Distance ∧
    computeDistance .l1Distance [1] [1, 2] = some 1 := by
  refine ⟨rfl, ?_⟩
  show some (((dotSum [1] [1, 2] : ℚ) : ℝ)) = some 1
  norm_num [dotSum]

/-- Claim C5 (code bug): `L1Distance::compute_distance(a, a)` at `a = [1]`
returns `1`, not `0` — the `define_distance_measure!` macro implements every
measure as a dot product (its own comment marks it a placeholder), so the
self-distance of a nonzero vector is its squared norm, not zero. -/
theorem c5_l1_self_distance_nonzero :
    computeDistance .l1Distance [1] [1] = some 1 ∧
    computeDistance .l1Distance [1] [1] ≠ some 0 := by
  have h : computeDistance .l1Distance [1] [1] = some 1 := by
    show some (((dotSum [1] [1] : ℚ) : ℝ)) = some 1
    norm_num [dotSum]
  refine ⟨h, ?_⟩
  rw [h]
  intro hc
  have : (1 : ℝ) = 0 := by injection hc
  norm_num at this

/-- Counterexample to claim C7: `retrieve_chunks` with `chunk_size == 0`
divides `input_seq.len()` by zero, which aborts the process (modelled by
`none`) instead of returning a typed `Result`. -/
theorem c7_counterexample_chunk_size_zero :
    retrieveChunks 1 [0] 0 = none := rfl

/-- Claim C7, amended: for every `chunk_size > 0`, `retrieve_chunks` returns
a typed `Ok` result (an `input_seq.len() / chunk_size` by `k` by
`chunk_size` block of zeros); `chunk_size == 0` panics with a division by
zero, as the counterexample shows. -/
theorem c7_retrieve_chunks_ok_for_positive_chunk_size
    (k : ℕ) (seq : List ℕ) (cs : ℕ) (h : cs ≠ 0) :
    retrieveChunks k seq cs =
      some (List.replicate (seq.length / cs)
        (List.replicate k (List.replicate cs 0))) := by
  simp [retrieveChunks, h]

/-- Concrete instance: four tokens split into chunks of two. -/
theorem c7_retrieve_chunks_witness :
    retrieveChunks 2 [1, 2, 3, 4] 2 =
      some (List.replicate 2 (List.replicate 2 (List.replicate 2 0))) :=
  c7_retrieve_chunks_ok_for_positive_chunk_size 2 [1, 2, 3, 4] 2 (by norm_num)

/-- Counterexample to claim C8: `DenseDataset::new` performs no validation,
so construction does not maintain the invariant — a store built from a
2-component row with declared dimensionality 3 violates it. -/
theorem c8_counterexample_new_unvalidated :
    ¬ DenseDataset.WF (DenseDataset.new [[1, 2]] 3) := by decide

/-- Claim C8, amended: `append` alone maintains the invariant — it rejects a
row of the wrong length with `InvalidArgument`, leaving the store unchanged,
and otherwise preserves well-formedness; `new` and `set_dimensionality`
store their arguments without validation (see the counterexample). -/
theorem c8_append_maintains_invariant (ds : DenseDataset) (v : List ℚ) :
    (v.length ≠ ds.dimensionality → ds.append v = (ds, some .invalidArgument)) ∧
    (DenseDataset.WF ds → DenseDataset.WF (ds.append v).1) := by
  constructor
  · intro h
    simp [DenseDataset.append, h]
  · intro hwf
    by_cases h : v.length = ds.dimensionality
    · simp only [DenseDataset.append, h, ne_eq, not_true_eq_false, if_neg, if_false]
      intro w hw
      rcases List.mem_append.mp hw with h1 | h1
      · exact hwf w h1
      · rw [List.mem_singleton.mp h1]
        exact h
    · simp only [DenseDataset.append, ne_eq, h, not_false_eq_true, if_true]
      exact hwf

/-- Concrete instance: a 2-dimensional store rejects a 1-component row
unchanged, and stays well-formed after appending a matching row. -/
theorem c8_append_maintains_invariant_witness :
    (DenseDataset.new [] 2).append [1] =
      (DenseDataset.new [] 2, some .invalidArgument) ∧
    DenseDataset.WF ((DenseDataset.new [] 2).append [1, 2]).1 :=
  ⟨(c8_append_maintains_invariant (DenseDataset.new [] 2) [1]).1 (by decide),
   (c8_append_maintains_invariant (DenseDataset.new [] 2) [1, 2]).2 (by decide)⟩

/-- Counterexample to claim C9: `from_config` on a config with
`min_cluster_size = 5 > 2 = max_leaf_size` succeeds (its return type is
`Self`, not a `Result`, so no `InvalidArgument` can be raised) and stores
the violating values verbatim. -/
theorem c9_counterexample_no_validation :
    (KMeansTreeTrainingOptions.fromConfig
      { partitioning_type := .default
        max_num_levels := 0
        max_leaf_size := 2
        database_spilling :=
          { spilling_type := .default, replication_factor := 0, max_spill_centers := 0 }
        max_clustering_iterations := 0
        clustering_convergence_tolerance := 0
        min_cluster_size := 5
        clustering_seed := 0
        balancing_type := .defaultUnbalanced
        trainer_type := .defaultSamplingTrainer
        single_machine_center_initialization := .defaultKmeansPlusPlus
        }).min_cluster_size = 5 ∧
    (KMeansTreeTrainingOptions.fromConfig
      { partitioning_type := .default
        max_num_levels := 0
        max_leaf_size := 2
        database_spilling :=
          { spilling_type := .default, replication_factor := 0, max_spill_centers := 0 }
        max_clustering_iterations := 0
        clustering_convergence_tolerance := 0
        min_cluster_size := 5
        clustering_seed := 0
        balancing_type := .defaultUnbalanced
        trainer_type := .defaultSamplingTrainer
        single_machine_center_initialization := .defaultKmeansPlusPlus
        }).max_leaf_size = 2 ∧
    (5 : ℤ) > 2 :=
  ⟨rfl, rfl, by norm_num⟩

/-- Claim C9, amended: `KMeansTreeTrainingOptions::new` and `from_config`
are infallible — they perform no validation at construction time;
`from_config` copies `min_cluster_size` and `max_leaf_size` from the config
unchanged (in particular when the former exceeds the latter), and `new`
zero-initialises both. -/
theorem c9_training_options_construction_never_fails (config : PartitioningConfig) :
    (KMeansTreeTrainingOptions.fromConfig config).min_cluster_size =
      config.min_cluster_size ∧
    (KMeansTreeTrainingOptions.fromConfig config).max_leaf_size =
      config.max_leaf_size ∧
    KMeansTreeTrainingOptions.new.min_cluster_size = 0 ∧
    KMeansTreeTrainingOptions.new.max_leaf_size = 0 :=
  ⟨rfl, rfl, rfl, rfl⟩

/-- Counterexample to claim C6: with a one-row basis `[[1]]` and the `f32`
input `[1]`, `project_input` produces `[-1]`, while
`dot(basis_row[0], input) = 1` — the `f32` path negates every projected
coordinate. -/
theorem c6_counterexample_f32_projection_negated :
    PcaProjection.projectInput ⟨1, 1, some (DenseDataset.new [[1]] 1)⟩ true [1]
      = some (.ok [-1]) ∧
    dotSum [1] [1] = 1 ∧
    (-1 : ℚ) ≠ 1 := by
  refine ⟨by with_unfolding_all rfl, by norm_num [dotSum], by norm_num⟩

/-- Claim C6, amended: projection is a linear map up to sign — when a basis
is present with at most `projected_dims` rows, coordinate `i` of the output
is `dot(basis_row[i], input)` for non-`f32` element types, and its negation
`-dot(basis_row[i], input)` for `f32` inputs (the sign convention the
counterexample exhibits). -/
theorem c6_projection_linear_up_to_sign (p : PcaProjection) (basis : DenseDataset)
    (isF32 : Bool) (input : List ℚ) (i : ℕ)
    (hb : p.pca_vecs = some basis) (hrows : basis.data.length ≤ p.projected_dims)
    (_hlen : input.length = p.input_dims) (hi : i < basis.data.length) :
    ∃ out, p.projectInput isF32 input = some (.ok out) ∧
      out[i]? = some (if isF32 then -(dotSum input basis.data[i])
                      else dotSum input basis.data[i]) := by
  have key : p.projectInput isF32 input = some (.ok
      (if isF32 then
        ((basis.data.map (fun row => dotSum input row)) ++
          List.replicate (p.projected_dims - basis.data.length) 0).map (fun x => -x)
       else
        (basis.data.map (fun row => dotSum input row)) ++
          List.replicate (p.projected_dims - basis.data.length) 0)) := by
    simp only [PcaProjection.projectInput, hb]
    rw [if_pos hrows]
  refine ⟨_, key, ?_⟩
  have hmap : i < (basis.data.map (fun row => dotSum input row)).length := by
    rw [List.length_map]
    exact hi
  have happ : ((basis.data.map (fun row => dotSum input row)) ++
      List.replicate (p.projected_dims - basis.data.length) 0)[i]? =
      some (dotSum input basis.data[i]) := by
    rw [List.getElem?_append, if_pos hmap, List.getElem?_map,
      List.getElem?_eq_getElem hi]
    rfl
  cases isF32 with
  | false => simpa using happ
  | true =>
    simp only [if_true]
    rw [List.getElem?_map, happ]
    rfl

/-- Concrete instance of the amended projection claim: basis `[[1]]`,
`f32` input `[2]`, coordinate `0` holds `-2`. -/
theorem c6_projection_linear_up_to_sign_witness :
    ∃ out, PcaProjection.projectInput ⟨1, 1, some (DenseDataset.new [[1]] 1)⟩ true [2]
      = some (.ok out) ∧ out[0]? = some ((-2 : ℚ)) := by
  obtain ⟨out, h1, h2⟩ := c6_projection_linear_up_to_sign
    ⟨1, 1, some (DenseDataset.new [[1]] 1)⟩ (DenseDataset.new [[1]] 1) true [2] 0
    rfl (by decide) (by decide) (by decide)
  refine ⟨out, h1, ?_⟩
  rw [h2]
  norm_num [dotSum, DenseDataset.new]

/-- Counterexample to claim C10's output-length half: a basis *loaded* with
two rows while `projected_dims = 1` (reachable through
`create_from_eigenvectors`, which does not validate) makes `project_input`
write out of bounds, aborting the process (`none`) — so with this present
basis the call neither fails with `FailedPrecondition` nor produces an
output of length `projected_dims`. -/
theorem c10_counterexample_oversized_basis_panics :
    (PcaProjection.create_from_eigenvectors ⟨1, 1, none⟩
      (DenseDataset.new [[0], [0]] 1)).pca_vecs ≠ none ∧
    PcaProjection.projectInput
      (PcaProjection.create_from_eigenvectors ⟨1, 1, none⟩
        (DenseDataset.new [[0], [0]] 1)) false [5] = none := by
  exact ⟨by simp [PcaProjection.create_from_eigenvectors], rfl⟩

/-- Claim C10, amended: `project_input` returns the `FailedPrecondition`
error exactly when no basis has been fit or loaded; when a basis with at
most `projected_dims` rows is present, the call succeeds on any input of
length `input_dims` and the output has length exactly `projected_dims` (a
loaded basis with more rows aborts on an out-of-bounds write instead, as
the counterexample shows). -/
theorem c10_project_input_failed_precondition_iff (p : PcaProjection)
    (isF32 : Bool) (input : List ℚ) :
    (p.projectInput isF32 input = some (.error .failedPrecondition) ↔
      p.pca_vecs = none) ∧
    (∀ basis, p.pca_vecs = some basis → basis.data.length ≤ p.projected_dims →
      input.length = p.input_dims →
      ∃ out, p.projectInput isF32 input = some (.ok out) ∧
        out.length = p.projected_dims) := by
  constructor
  · constructor
    · intro h
      cases hp : p.pca_vecs with
      | none => rfl
      | some basis =>
        exfalso
        simp only [PcaProjection.projectInput, hp] at h
        split at h <;> simp at h
    · intro h
      simp only [PcaProjection.projectInput, h]
  · intro basis hb hle hlen
    have key : p.projectInput isF32 input = some (.ok
        (if isF32 then
          ((basis.data.map (fun row => dotSum input row)) ++
            List.replicate (p.projected_dims - basis.data.length) 0).map (fun x => -x)
         else
          (basis.data.map (fun row => dotSum input row)) ++
            List.replicate (p.projected_dims - basis.data.length) 0)) := by
      simp only [PcaProjection.projectInput, hb]
      rw [if_pos hle]
    refine ⟨_, key, ?_⟩
    cases isF32 <;>
      simp only [if_true, if_false, Bool.false_eq_true, List.length_map,
        List.length_append, List.length_replicate] <;>
      omega

/-- Concrete instance: with a fitted one-row basis, projecting a
one-component input yields a one-component output, and the no-basis state is
exactly the `FailedPrecondition` case. -/
theorem c10_project_input_witness :
    (∃ out, PcaProjection.projectInput ⟨1, 1, some (DenseDataset.new [[1]] 1)⟩ false [2]
      = some (.ok out) ∧ out.length = 1) ∧
    (PcaProjection.projectInput ⟨1, 1, none⟩ false [2]
      = some (.error .failedPrecondition)) :=
  ⟨(c10_project_input_failed_precondition_iff
      ⟨1, 1, some (DenseDataset.new [[1]] 1)⟩ false [2]).2
      (DenseDataset.new [[1]] 1) rfl (by decide) (by decide),
   (c10_project_input_failed_precondition_iff ⟨1, 1, none⟩ false [2]).1.mpr rfl⟩

/-- An enumerated list has no duplicate entries (their indices differ). -/
theorem enum_nodup {α : Type _} (l : List α) : l.enum.Nodup :=
  List.Nodup.of_map Prod.fst (List.nodup_enum_map_fst l)

/-- In a doubly enumerated list every entry's outer index equals its inner
index. -/
theorem enum_enum_fst {α : Type _} {l : List α} {x : ℕ × ℕ × α}
    (hx : x ∈ l.enum.enum) : x.2.1 = x.1 := by
  have h1 := List.mem_enum_iff_getElem?.mp hx
  rw [List.getElem?_enum] at h1
  cases h2 : l[x.1]? with
  | none =>
    rw [h2] at h1
    exact absurd h1 (by simp)
  | some a =>
    rw [h2] at h1
    have h3 : (x.1, a) = x.2 := by simpa using h1
    rw [← h3]

/-- The output of the stable sort used by `search` — `sort_by` on the
distance component over an index-enumerated list — is ordered by distance
with ties in ascending index order. -/
theorem mergeSort_distLE_pairwise (l : List ℚ) :
    (List.mergeSort l.enum distLE).Pairwise
      (fun a b => a.2 < b.2 ∨ (a.2 = b.2 ∧ a.1 < b.1)) := by
  have trans' : ∀ a b c : ℕ × ℚ, distLE a b → distLE b c → distLE a c := by
    intro a b c hab hbc
    simp only [distLE, decide_eq_true_eq] at hab hbc ⊢
    exact le_trans hab hbc
  have total' : ∀ a b : ℕ × ℚ, distLE a b || distLE b a := by
    intro a b
    simp only [distLE, Bool.or_eq_true, decide_eq_true_eq]
    exact le_total a.2 b.2
  have hrw : (List.mergeSort (l.enum.enum) (List.enumLE distLE)).map
      (fun p => p.2) = List.mergeSort l.enum distLE := List.mergeSort_enum
  rw [← hrw, List.pairwise_map]
  have hsorted : (List.mergeSort (l.enum.enum) (List.enumLE distLE)).Pairwise
      (fun a b => List.enumLE distLE a b = true) :=
    List.sorted_mergeSort (List.enumLE_trans trans') (List.enumLE_total total')
      (l.enum.enum)
  have hnodup : (List.mergeSort (l.enum.enum) (List.enumLE distLE)).Nodup :=
    (List.mergeSort_perm (l.enum.enum) (List.enumLE distLE)).symm.nodup
      (enum_nodup l.enum)
  have hp := hsorted.and hnodup
  refine hp.imp_of_mem ?_
  intro x y hx hy hr
  obtain ⟨hle, hne⟩ := hr
  have hx1 := enum_enum_fst (List.mem_mergeSort.mp hx)
  have hy1 := enum_enum_fst (List.mem_mergeSort.mp hy)
  obtain ⟨xa, xb, xc⟩ := x
  obtain ⟨ya, yb, yc⟩ := y
  dsimp only at hx1 hy1 hle ⊢
  subst hx1 hy1
  simp only [List.enumLE, distLE] at hle
  split_ifs at hle with h1 h2
  · rw [decide_eq_true_eq] at hle h1 h2
    have hcc : xc = yc := le_antisymm h1 h2
    rcases lt_or_eq_of_le hle with hab | hab
    · exact Or.inr ⟨hcc, hab⟩
    · exfalso
      apply hne
      rw [hab, hcc]
  · simp only [decide_eq_true_eq] at h1 h2
    exact Or.inl (lt_of_le_not_le h1 h2)

/-- Claim C1: `search` returns `min(k, |D|)` candidates, sorted by
non-decreasing distance, with ties in distance broken by ascending point id
(the stable sort keeps the index-ascending insertion order). -/
theorem c1_search_sorted_topk (dist : List ℚ → List ℚ → ℚ) (k : ℕ)
    (ds : DenseDataset) (q : List ℚ) :
    (search dist k ds q).length = min k ds.size ∧
    (search dist k ds q).Pairwise
      (fun a b => a.2 < b.2 ∨ (a.2 = b.2 ∧ a.1 < b.1)) := by
  have hfun : (fun p : ℕ × List ℚ => (p.1, dist q p.2)) = Prod.map id (dist q) := by
    funext p
    cases p
    rfl
  have hM : searchResults dist ds q = (ds.data.map (dist q)).enum := by
    unfold searchResults
    rw [hfun]
    show ds.data.enum.map (Prod.map id (dist q)) = (ds.data.map (dist q)).enum
    unfold List.enum
    exact List.map_enumFrom (dist q) 0 ds.data
  constructor
  · unfold search
    rw [hM, List.length_take, List.length_mergeSort, List.enum_length,
      List.length_map]
    rfl
  · unfold search
    refine List.Pairwise.sublist (List.take_sublist _ _) ?_
    rw [hM]
    exact mergeSort_distLE_pairwise (ds.data.map (dist q))

end Scann
